import Mathlib

/-! Metricbeat module runner and test-data generator.

A shallow embedding of two files of the Beats repository:

* `metricbeat/mb/module/runner.go`: the `Runner` facade (`NewRunner`, `Start`,
  `Stop`, `String`);
* `metricbeat/mb/testing/data_generator.go`: `WriteEvents`, `WriteEventsCond`,
  `CreateFullEvent`, `StandardizeEvent`, `WriteEventToDataJSON`.

The runner is concurrent: the caller, the forwarding goroutine and the module
run side by side.  It is modelled as an interleaving transition system whose
state holds the fields of the Go struct, the program counter of the caller, the
state of the goroutine and the output channel of the module.  A schedule is a
list of actions; an action that is not enabled (a blocked `wg.Wait()`, a receive
on an empty open channel) leaves the state unchanged.
-/

namespace Beats

/-! ## The runner: data model -/

/-- The two methods of the `Runner` interface. -/
inductive Call
  | start
  | stop
  deriving DecidableEq, Repr

/-- Modelled from the spec: the declaration of `Wrapper` is not among the
sources; the spec identifies a module "by a name and a count of sub-collectors
(metricsets), used only for the diagnostic descriptor".  The model keeps what
`runner.String` reads: the result of `mod.Name()` and the slice
`mod.metricSets`, one entry per metricset. -/
structure Wrapper where
  name : String
  metricSets : List String
  deriving DecidableEq, Repr

/-- Modelled from the spec: `beat.Client` is not among the sources; the spec
gives the sink the operations `Publish(event)` and `Close()` and tests it with a
sink that "records all `Publish` calls".  The model keeps the list of `Publish`
calls, the number of `Close` calls, and whether `Close` reports an error. -/
structure Client (Ev : Type) where
  published : List Ev
  closed : Nat
  closeErr : Bool
  deriving DecidableEq, Repr

/-- The Go struct `runner`.  `done` is `true` once the channel is closed, `wg`
is the counter of the `sync.WaitGroup`, `startOnce` and `stopOnce` are `true`
once the function given to `Do` has returned. -/
structure runner (Ev : Type) where
  done : Bool
  wg : Nat
  startOnce : Bool
  stopOnce : Bool
  mod : Wrapper
  client : Client Ev
  deriving DecidableEq, Repr

/-- The event channel returned by `mod.Start`: the events sent and not yet
received, and whether the module has closed it. -/
structure Chan (Ev : Type) where
  buf : List Ev
  closed : Bool
  deriving DecidableEq, Repr

/-- State of the goroutine running `PublishChannels(mr.client, output)`:
waiting to receive from `output`, holding a received event that it is about to
publish, or returned (after the deferred `mr.wg.Done()`). -/
inductive Task (Ev : Type)
  | receiving
  | publishing (e : Ev)
  | exited
  deriving DecidableEq, Repr

/-- Program counter of the calling thread: idle between calls, or in front of
one of the statements of the body of `Start` or of `Stop`. -/
inductive Pc
  | idle
  | startModStart
  | startWgAdd
  | startGo
  | stopCloseDone
  | stopClientClose
  | stopWgWait
  deriving DecidableEq, Repr

/-- Observable effects, logged in the order in which they happen. -/
inductive Obs (Ev : Type)
  | call (c : Call)
  | ret (c : Call)
  | modStart (raised : Bool)
  | spawn
  | raise
  | sinkClose
  | waited
  | emit (e : Ev)
  | srcClose
  | publish (e : Ev)
  | taskExit
  deriving DecidableEq, Repr

/-- The whole system: the runner, the caller, the module output channel
(`none` before `mod.Start`), the goroutine (`none` before `go`), whether a Go
panic has occurred, and the log of effects. -/
structure Sys (Ev : Type) where
  mr : runner Ev
  pc : Pc
  output : Option (Chan Ev)
  task : Option (Task Ev)
  panicked : Bool
  trace : List (Obs Ev)
  deriving DecidableEq, Repr

/-- Scheduling choices: the caller invokes a method, the caller executes its
next statement, the goroutine takes a step, the module sends an event on its
output channel, the module closes its output channel. -/
inductive Action (Ev : Type)
  | call (c : Call)
  | caller
  | task
  | modSend (e : Ev)
  | modClose
  deriving DecidableEq, Repr

variable {Ev : Type}

/-! ## The runner: operations -/

/-- The constructor `NewRunner(client, mod)`, with the caller idle and nothing
started. -/
def NewRunner (client : Client Ev) (mod : Wrapper) : Sys Ev :=
  { mr := { done := false, wg := 0, startOnce := false, stopOnce := false,
            mod := mod, client := client }
    pc := .idle, output := none, task := none, panicked := false, trace := [] }

/-- Entry of `mr.Start()` or `mr.Stop()`: `Once.Do` returns at once when its
function has already run, otherwise the caller enters the function body. -/
def invoke (s : Sys Ev) (c : Call) : Option (Sys Ev) :=
  match s.pc, c with
  | .idle, .start =>
    if s.mr.startOnce then some { s with trace := s.trace ++ [.call .start, .ret .start] }
    else some { s with pc := .startModStart, trace := s.trace ++ [.call .start] }
  | .idle, .stop =>
    if s.mr.stopOnce then some { s with trace := s.trace ++ [.call .stop, .ret .stop] }
    else some { s with pc := .stopCloseDone, trace := s.trace ++ [.call .stop] }
  | _, _ => none

/-- The statement `output := mr.mod.Start(mr.done)`.  `Wrapper.Start` is not
among the sources; by the spec it "begins production" and returns the event
source, here a fresh open channel on which the module sends and which it closes
when it chooses (`modSend`, `modClose`).  The log keeps whether `done` was
closed at that moment. -/
def Start_modStart (s : Sys Ev) : Sys Ev :=
  { s with output := some { buf := [], closed := false }, pc := .startWgAdd,
           trace := s.trace ++ [.modStart s.mr.done] }

/-- The statement `mr.wg.Add(1)`. -/
def Start_wgAdd (s : Sys Ev) : Sys Ev :=
  { s with mr := { s.mr with wg := s.mr.wg + 1 }, pc := .startGo }

/-- The statement `go func() ...`, after which the function given to
`startOnce.Do` returns and so does `Start`. -/
def Start_go (s : Sys Ev) : Sys Ev :=
  { s with task := some .receiving, mr := { s.mr with startOnce := true }, pc := .idle,
           trace := s.trace ++ [.spawn, .ret .start] }

/-- The statement `close(mr.done)`; closing a closed channel panics. -/
def Stop_closeDone (s : Sys Ev) : Sys Ev :=
  if s.mr.done then { s with panicked := true }
  else { s with mr := { s.mr with done := true }, pc := .stopClientClose,
                trace := s.trace ++ [.raise] }

/-- The statement `mr.client.Close()`, whose result is not inspected. -/
def Stop_clientClose (s : Sys Ev) : Sys Ev :=
  { s with mr := { s.mr with client := { s.mr.client with closed := s.mr.client.closed + 1 } },
           pc := .stopWgWait, trace := s.trace ++ [.sinkClose] }

/-- The statement `mr.wg.Wait()`: blocked while the counter is positive;
afterwards the function given to `stopOnce.Do` returns and so does `Stop`. -/
def Stop_wgWait (s : Sys Ev) : Option (Sys Ev) :=
  if s.mr.wg = 0 then
    some { s with mr := { s.mr with stopOnce := true }, pc := .idle,
                  trace := s.trace ++ [.waited, .ret .stop] }
  else none

/-- The next statement of the caller. -/
def callerStep (s : Sys Ev) : Option (Sys Ev) :=
  match s.pc with
  | .idle => none
  | .startModStart => some (Start_modStart s)
  | .startWgAdd => some (Start_wgAdd s)
  | .startGo => some (Start_go s)
  | .stopCloseDone => some (Stop_closeDone s)
  | .stopClientClose => some (Stop_clientClose s)
  | .stopWgWait => Stop_wgWait s

/-- The deferred `mr.wg.Done()`; a negative counter panics. -/
def wgDone (s : Sys Ev) : Sys Ev :=
  if s.mr.wg = 0 then { s with panicked := true }
  else { s with mr := { s.mr with wg := s.mr.wg - 1 }, task := some .exited,
                trace := s.trace ++ [.taskExit] }

/-- Modelled from the spec: `PublishChannels` is not among the sources; the
forwarding task "drains the event source and forwards each event to the Sink,
continuing until the source signals completion".  One step of it: receive the
next event, publish the event received, or return when the source is closed and
drained (which runs the deferred `mr.wg.Done()`). -/
def PublishChannels (s : Sys Ev) : Option (Sys Ev) :=
  match s.task, s.output with
  | some .receiving, some ch =>
    match ch.buf with
    | e :: rest => some { s with task := some (.publishing e), output := some { ch with buf := rest } }
    | [] => if ch.closed then some (wgDone s) else none
  | some (.publishing e), _ =>
    some { s with mr := { s.mr with client := { s.mr.client with
                            published := s.mr.client.published ++ [e] } },
                  task := some .receiving, trace := s.trace ++ [.publish e] }
  | _, _ => none

/-- The module sends event `e` on its output channel (possible once started and
until it closes the channel). -/
def modSend (s : Sys Ev) (e : Ev) : Option (Sys Ev) :=
  match s.output with
  | some ch =>
    if ch.closed then none
    else some { s with output := some { ch with buf := ch.buf ++ [e] },
                       trace := s.trace ++ [.emit e] }
  | none => none

/-- The module closes its output channel. -/
def modClose (s : Sys Ev) : Option (Sys Ev) :=
  match s.output with
  | some ch =>
    if ch.closed then none
    else some { s with output := some { ch with closed := true }, trace := s.trace ++ [.srcClose] }
  | none => none

/-- One scheduling step; `none` when the action is not enabled.  Nothing runs
after a panic. -/
def step (s : Sys Ev) (a : Action Ev) : Option (Sys Ev) :=
  if s.panicked then none
  else match a with
    | .call c => invoke s c
    | .caller => callerStep s
    | .task => PublishChannels s
    | .modSend e => modSend s e
    | .modClose => modClose s

/-- A step that skips an action that is not enabled. -/
def next (s : Sys Ev) (a : Action Ev) : Sys Ev :=
  (step s a).getD s

/-- Execution of a schedule. -/
def run (s : Sys Ev) : List (Action Ev) → Sys Ev
  | [] => s
  | a :: as => run (next s a) as

/-- Execution of a schedule in which every action must be enabled. -/
def exec (s : Sys Ev) : List (Action Ev) → Option (Sys Ev)
  | [] => some s
  | a :: as => (step s a).bind fun t => exec t as

/-! ## Reading the log -/

/-- Log entries of `mr.mod.Start(mr.done)`. -/
def Obs.isModStart : Obs Ev → Bool
  | .modStart _ => true
  | _ => false

/-- Log entries of the `go` statement. -/
def Obs.isSpawn : Obs Ev → Bool
  | .spawn => true
  | _ => false

/-- Log entries of `close(mr.done)`. -/
def Obs.isRaise : Obs Ev → Bool
  | .raise => true
  | _ => false

/-- Log entries of `mr.client.Close()`. -/
def Obs.isSinkClose : Obs Ev → Bool
  | .sinkClose => true
  | _ => false

/-- Log entries of a completed `mr.wg.Wait()`. -/
def Obs.isWaited : Obs Ev → Bool
  | .waited => true
  | _ => false

/-- The three effects of the body of `Stop`. -/
def Obs.isShutdown : Obs Ev → Bool
  | .raise => true
  | .sinkClose => true
  | .waited => true
  | _ => false

/-- The events the module sent on its output channel, in order. -/
def emitted : List (Obs Ev) → List Ev
  | [] => []
  | .emit e :: t => e :: emitted t
  | _ :: t => emitted t

/-- The events handed to `client.Publish`, in order. -/
def publishedIn : List (Obs Ev) → List Ev
  | [] => []
  | .publish e :: t => e :: publishedIn t
  | _ :: t => publishedIn t

/-- The event a goroutine has received and not yet published. -/
def Task.inflight : Option (Task Ev) → List Ev
  | some (.publishing e) => [e]
  | _ => []

/-- Whether the goroutine has been started and has not yet returned. -/
def Task.running : Option (Task Ev) → Bool
  | some .receiving => true
  | some (.publishing _) => true
  | _ => false

/-- Whether the goroutine has returned. -/
def Task.isExited : Option (Task Ev) → Bool
  | some .exited => true
  | _ => false

/-- The events waiting in the output channel. -/
def Chan.pending : Option (Chan Ev) → List Ev
  | some ch => ch.buf
  | none => []

/-- Whether the output channel exists and has been closed by the module. -/
def Chan.isClosed : Option (Chan Ev) → Bool
  | some ch => ch.closed
  | none => false

/-- How far the first `Stop` has got: 0 before `close(mr.done)`, 1 after it,
2 after `mr.client.Close()`, 3 once `mr.wg.Wait()` has returned. -/
def stopStage (s : Sys Ev) : Nat :=
  if s.mr.stopOnce then 3
  else match s.pc with
    | .stopClientClose => 1
    | .stopWgWait => 2
    | _ => 0

/-- In the log, a `Start()` has returned before the first call of `Stop()`
(or `Stop()` has not been called at all). -/
def stopAfterStart : List (Obs Ev) → Bool
  | [] => true
  | .ret .start :: _ => true
  | .call .stop :: _ => false
  | _ :: t => stopAfterStart t

/-- No `Publish` is logged after a return of `Stop()`. -/
def QuietAfterStop (tr : List (Obs Ev)) : Prop :=
  ∀ a b, tr = a ++ Obs.ret .stop :: b → ∀ e, Obs.publish e ∉ b

/-! ## Invariants of the runner -/

/-- Invariant of the start side: what `startOnce`, the program counter, the
channel, the goroutine and the wait-group counter say about each other. -/
def StartOK (s : Sys Ev) : Prop :=
  if s.mr.startOnce = true then
    (s.pc = .idle ∨ s.pc = .stopCloseDone ∨ s.pc = .stopClientClose ∨ s.pc = .stopWgWait) ∧
    s.output.isSome = true ∧ s.task.isSome = true ∧
    s.trace.countP Obs.isModStart = 1 ∧ s.trace.countP Obs.isSpawn = 1 ∧
    (s.mr.wg = 1 ∧ Task.running s.task = true ∨ s.mr.wg = 0 ∧ Task.running s.task = false)
  else
    s.task = none ∧ s.trace.countP Obs.isSpawn = 0 ∧ Obs.ret .start ∉ s.trace ∧
    match s.pc with
    | .startWgAdd => s.output.isSome = true ∧ s.trace.countP Obs.isModStart = 1 ∧ s.mr.wg = 0
    | .startGo => s.output.isSome = true ∧ s.trace.countP Obs.isModStart = 1 ∧ s.mr.wg = 1
    | _ => s.output = none ∧ s.trace.countP Obs.isModStart = 0 ∧ s.mr.wg = 0

/-- Invariant of the stop side, for a runner built on the client `c`. -/
def StopOK (c : Client Ev) (s : Sys Ev) : Prop :=
  s.mr.client.closed = c.closed + s.trace.countP Obs.isSinkClose ∧
  s.mr.client.closeErr = c.closeErr ∧
  s.trace.filter Obs.isShutdown = [Obs.raise, Obs.sinkClose, Obs.waited].take (stopStage s) ∧
  if s.mr.stopOnce = true then
    (s.pc = .idle ∨ s.pc = .startModStart ∨ s.pc = .startWgAdd ∨ s.pc = .startGo) ∧
    s.mr.done = true ∧ Obs.call .stop ∈ s.trace ∧ Obs.ret .stop ∈ s.trace ∧
    s.trace.countP Obs.isRaise = 1 ∧ s.trace.countP Obs.isSinkClose = 1 ∧
    s.trace.countP Obs.isWaited = 1
  else
    s.trace.countP Obs.isWaited = 0 ∧ Obs.ret .stop ∉ s.trace ∧
    match s.pc with
    | .stopCloseDone => s.mr.done = false ∧ Obs.call .stop ∈ s.trace ∧
        s.trace.countP Obs.isRaise = 0 ∧ s.trace.countP Obs.isSinkClose = 0
    | .stopClientClose => s.mr.done = true ∧ Obs.call .stop ∈ s.trace ∧
        s.trace.countP Obs.isRaise = 1 ∧ s.trace.countP Obs.isSinkClose = 0
    | .stopWgWait => s.mr.done = true ∧ Obs.call .stop ∈ s.trace ∧
        s.trace.countP Obs.isRaise = 1 ∧ s.trace.countP Obs.isSinkClose = 1
    | _ => s.mr.done = false ∧ Obs.call .stop ∉ s.trace ∧
        s.trace.countP Obs.isRaise = 0 ∧ s.trace.countP Obs.isSinkClose = 0

/-- Invariant of the event flow, for a runner built on the client `c`: every
event sent by the module is published, held by the goroutine, or waiting in the
channel, in this order; the goroutine returns only from a closed, drained
channel. -/
def ChanOK (c : Client Ev) (s : Sys Ev) : Prop :=
  s.mr.client.published = c.published ++ publishedIn s.trace ∧
  emitted s.trace = publishedIn s.trace ++ Task.inflight s.task ++ Chan.pending s.output ∧
  (Task.isExited s.task = true → Chan.isClosed s.output = true ∧ Chan.pending s.output = [])

/-- The invariant of all states reached from `NewRunner c mod`. -/
def Inv (c : Client Ev) (s : Sys Ev) : Prop :=
  s.panicked = false ∧ StartOK s ∧ StopOK c s ∧ ChanOK c s

/-- Facts that hold when the first `Stop()` came after a `Start()` had returned:
a called `Stop()` finds the goroutine started, a returned `Stop()` leaves it
terminated, and nothing is published after `Stop()` has returned. -/
def Ordered (s : Sys Ev) : Prop :=
  (Obs.call .stop ∈ s.trace → s.mr.startOnce = true) ∧
  (Obs.ret .stop ∈ s.trace → Task.isExited s.task = true) ∧
  QuietAfterStop s.trace


/-- The state reached from a fresh runner under a schedule. -/
def reached (c : Client Ev) (mod : Wrapper) (sched : List (Action Ev)) : Sys Ev :=
  run (NewRunner c mod) sched

/-- A schedule for the scenario "the module produces the events `es` and then
closes its source": `Start()`, each event sent and forwarded, the source
closed, the goroutine returning, `Stop()`. -/
def scenario (es : List Ev) : List (Action Ev) :=
  [.call .start, .caller, .caller, .caller] ++
  es.flatMap (fun e => [.modSend e, .task, .task]) ++
  [.modClose, .task, .call .stop, .caller, .caller, .caller]

/-- The same system with another answer of the client to `Close`. -/
def withCloseErr (b : Bool) (s : Sys Ev) : Sys Ev :=
  { s with mr := { s.mr with client := { s.mr.client with closeErr := b } } }

/-- Arguments of `fmt.Sprintf`. -/
inductive FmtArg
  | str (s : String)
  | int (n : Int)

/-- The function `fmt.Sprintf` for the verbs `%s` (a string operand, copied) and
`%d` (an integer operand, in decimal); other characters are copied. -/
def Sprintf : List Char → List FmtArg → List Char
  | '%' :: 's' :: rest, .str s :: args => s.toList ++ Sprintf rest args
  | '%' :: 'd' :: rest, .int n :: args => (toString n).toList ++ Sprintf rest args
  | ch :: rest, args => ch :: Sprintf rest args
  | [], _ => []

/-- The method `String`: `fmt.Sprintf("%s [metricsets=%d]", mr.mod.Name(),
len(mr.mod.metricSets))`, returned together with the state it leaves. -/
def runner.String (s : Sys Ev) : String × Sys Ev :=
  (String.mk (Sprintf "%s [metricsets=%d]".toList
    [.str s.mr.mod.name, .int (Int.ofNat s.mr.mod.metricSets.length)]), s)

/-! ## The test-data generator: data model -/

/-- A `time.Time`, by its calendar fields in UTC. -/
structure Time where
  year : Nat
  month : Nat
  day : Nat
  hour : Nat
  minute : Nat
  second : Nat
  nano : Nat
  deriving DecidableEq, Repr

/-- The constant `time.Microsecond`, a `time.Duration` counted in nanoseconds. -/
def Microsecond : Int := 1000

/-- The values stored in a `common.MapStr` (`interface{}`), as far as this file
puts them there: strings, times, nested maps, and anything else by name. -/
inductive Value
  | str (s : String)
  | time (t : Time)
  | map (m : List (String × Value))
  | other (tag : String)

/-- The type `common.MapStr`, a `map[string]interface{}`: its entries. -/
abbrev MapStr := List (String × Value)

/-- The assignment `m[k] = v` on a map that is not nil: the entry for `k` is
replaced, or added when there is none. -/
def MapStr.set : MapStr → String → Value → MapStr
  | [], k, v => [(k, v)]
  | (k', v') :: m, k, v => if k' = k then (k, v) :: m else (k', v') :: MapStr.set m k v

/-- The lookup `m[k]`. -/
def MapStr.get? : MapStr → String → Option Value
  | [], _ => none
  | (k', v') :: m, k => if k' = k then some v' else MapStr.get? m k

/-- What the code asks of an `mb.MetricSet`: `Name()`, `Module().Name()`,
`Host()` and `Registration().Namespace`. -/
structure MetricSet where
  name : String
  moduleName : String
  host : String
  registrationNamespace : String

/-- Modelled from the spec: the declaration of `mb.Event` is not among the
sources (the spec calls an event an "opaque payload"); the model keeps the
fields that `StandardizeEvent` assigns and the remaining content as one map. -/
structure mb.Event where
  content : MapStr
  Timestamp : Time
  Took : Int
  Host : String
  Namespace : String

/-- Modelled from the spec: the declaration of `beat.Event` is not among the
sources; the model keeps the two fields the code reads and writes, `Timestamp`
and `Fields` (`none` is the nil map). -/
structure beat.Event where
  Timestamp : Time
  Fields : Option MapStr

/-- Functions of package `mb` that are not among the sources, taken as
parameters: `mb.TransformMapStrToEvent(module, m, nil)` and
`e.BeatEvent(module, metricSet, mb.AddMetricSetInfo)`. -/
structure Deps where
  TransformMapStrToEvent : String → MapStr → mb.Event
  BeatEvent : mb.Event → String → String → beat.Event

/-- An `mb.EventsFetcher`: a metricset and the two results of its `Fetch()`. -/
structure EventsFetcher where
  ms : MetricSet
  fetch : List MapStr × Option String

/-- The surroundings of a test run: the `-data` flag, the results of
`os.Getwd()`, `path.Join`, `json.MarshalIndent(v, "", "    ")` and the error, if
any, of `ioutil.WriteFile` for a path. -/
structure Env where
  dataFlag : Bool
  getwd : Except String String
  join : List String → String
  marshalIndent : MapStr → Except String String
  writeErr : String → Option String

/-- The files written so far, as pairs of path and content, latest first. -/
structure World where
  files : List (String × String)

/-- How a call inside a test ends: it returns a value, or the test goroutine
exits through `t.Skip` or `t.Fatal`, or it panics. -/
inductive Outcome (α : Type)
  | ret (a : α)
  | skip (msg : String)
  | fatal (msg : String)
  | panic (msg : String)

/-! ## The test-data generator: operations -/

/-- The value of a decimal digit. -/
def digit? (ch : Char) : Option Nat :=
  if ch.isDigit then some (ch.toNat - '0'.toNat) else none

/-- The value of a string of decimal digits. -/
def number? : List Char → Option Nat
  | [] => none
  | cs => cs.foldl (fun acc ch => acc.bind fun n => (digit? ch).map fun d => 10 * n + d) (some 0)

/-- The fraction of a second and the zone of an RFC 3339 time in UTC: `Z`, or
a point, one to nine digits and `Z`; the result is in nanoseconds. -/
def fraction? : List Char → Option Nat
  | ['Z'] => some 0
  | '.' :: rest =>
    match rest.reverse with
    | 'Z' :: ds =>
      if ds.length ≤ 9 then (number? ds.reverse).map fun n => n * 10 ^ (9 - ds.length) else none
    | _ => none
  | _ => none

/-- The call `time.Parse(time.RFC3339Nano, s)` for times written in UTC with
the zone `Z`; everything else is reported as an error. -/
def parseRFC3339Nano (s : String) : Except String Time :=
  match s.toList with
  | y1 :: y2 :: y3 :: y4 :: '-' :: m1 :: m2 :: '-' :: d1 :: d2 :: 'T' ::
      h1 :: h2 :: ':' :: n1 :: n2 :: ':' :: s1 :: s2 :: rest =>
    match number? [y1, y2, y3, y4], number? [m1, m2], number? [d1, d2], number? [h1, h2],
        number? [n1, n2], number? [s1, s2], fraction? rest with
    | some y, some m, some d, some h, some n, some sec, some ns =>
      if 1 ≤ m ∧ m ≤ 12 ∧ 1 ≤ d ∧ d ≤ 31 ∧ h < 24 ∧ n < 60 ∧ sec < 60 then
        .ok ⟨y, m, d, h, n, sec, ns⟩
      else .error "parsing time: out of range"
    | _, _, _, _, _, _, _ => .error "parsing time: cannot parse"
  | _ => .error "parsing time: cannot parse"

/-- The assignments of `StandardizeEvent` to its event: `Timestamp`, `Took`,
`Host`, and `Namespace` when it is empty. -/
def standardize (ms : MetricSet) (e : mb.Event) (startTime : Time) : mb.Event :=
  let e := { e with Timestamp := startTime }
  let e := { e with Took := 115 * Microsecond }
  let e := { e with Host := ms.host }
  if e.Namespace = "" then { e with Namespace := ms.registrationNamespace } else e

/-- The assignment `fullEvent.Fields["beat"] = common.MapStr ...`, which panics
on a nil map. -/
def setBeat (fullEvent : beat.Event) : Except String beat.Event :=
  match fullEvent.Fields with
  | none => .error "assignment to entry in nil map"
  | some fields =>
    .ok { fullEvent with Fields := some (fields.set "beat"
      (.map [("name", .str "host.example.com"), ("hostname", .str "host.example.com")])) }

/-- The function `StandardizeEvent(ms, e, mb.AddMetricSetInfo)`; an error
result stands for a panic. -/
def StandardizeEvent (deps : Deps) (ms : MetricSet) (e : mb.Event) : Except String beat.Event :=
  match parseRFC3339Nano "2017-10-12T08:05:34.853Z" with
  | .error err => .error err
  | .ok startTime =>
    setBeat (deps.BeatEvent (standardize ms e startTime) ms.moduleName ms.name)

/-- The function `CreateFullEvent(ms, metricSetData)`. -/
def CreateFullEvent (deps : Deps) (ms : MetricSet) (metricSetData : MapStr) :
    Except String beat.Event :=
  StandardizeEvent deps ms (deps.TransformMapStrToEvent ms.moduleName metricSetData)

/-- The function `WriteEventToDataJSON(t, fullEvent, postfixPath)`: how it
ends, the files afterwards, and the event with its (shared) `Fields` map
afterwards. -/
def WriteEventToDataJSON (env : Env) (w : World) (fullEvent : beat.Event)
    (postfixPath : String) : Outcome Unit × World × beat.Event :=
  if !env.dataFlag then (.ret (), w, fullEvent)
  else match env.getwd with
    | .error err => (.fatal err, w, fullEvent)
    | .ok p =>
      let p := env.join [p, postfixPath, "_meta", "data.json"]
      match fullEvent.Fields with
      | none => (.panic "assignment to entry in nil map", w, fullEvent)
      | some fields =>
        let fields := fields.set "@timestamp" (.time fullEvent.Timestamp)
        let fullEvent := { fullEvent with Fields := some fields }
        match env.marshalIndent fields with
        | .error err => (.fatal err, w, fullEvent)
        | .ok output =>
          match env.writeErr p with
          | some err => (.fatal err, w, fullEvent)
          | none => (.ret (), { files := (p, output) :: w.files }, fullEvent)

/-- The loop of `WriteEventsCond`: the first event for which `cond` holds. -/
def firstMatch (cond : MapStr → Bool) : List MapStr → Option MapStr
  | [] => none
  | e :: rest => if cond e then some e else firstMatch cond rest

/-- The last three lines of `WriteEventsCond`: build the full event of the
chosen one, write it, return nil. -/
def writeChosen (env : Env) (deps : Deps) (w : World) (ms : MetricSet) (event : MapStr) :
    Outcome (Option String) × World :=
  match CreateFullEvent deps ms event with
  | .error msg => (.panic msg, w)
  | .ok fullEvent =>
    match WriteEventToDataJSON env w fullEvent "" with
    | (.ret (), w', _) => (.ret none, w')
    | (.skip msg, w', _) => (.skip msg, w')
    | (.fatal msg, w', _) => (.fatal msg, w')
    | (.panic msg, w', _) => (.panic msg, w')

/-- The function `WriteEventsCond(f, t, cond)`; `cond = none` is the nil
function. The returned value is the error (`none` for nil). -/
def WriteEventsCond (env : Env) (deps : Deps) (w : World) (f : EventsFetcher)
    (cond : Option (MapStr → Bool)) : Outcome (Option String) × World :=
  if !env.dataFlag then (.skip "skip data generation tests", w)
  else match f.fetch with
    | (_, some err) => (.ret (some err), w)
    | (events, none) =>
      match events with
      | [] => (.ret (some "no events were generated"), w)
      | first :: _ =>
        match cond with
        | none => writeChosen env deps w f.ms first
        | some c =>
          match firstMatch c events with
          | none => (.ret (some "no events satisfied the condition"), w)
          | some e => writeChosen env deps w f.ms e

/-- The function `WriteEvents(f, t)`. -/
def WriteEvents (env : Env) (deps : Deps) (w : World) (f : EventsFetcher) :
    Outcome (Option String) × World :=
  WriteEventsCond env deps w f none

/-! ## Concrete surroundings, for evaluating the generator -/

/-- A test run with the `-data` flag set, in the directory `/beats/module`, in
which every operation of the system succeeds. -/
def sampleEnv : Env where
  dataFlag := true
  getwd := .ok "/beats/module"
  join := fun parts => "/".intercalate (parts.filter fun p => p ≠ "")
  marshalIndent := fun m => .ok (String.join (m.map fun p => p.1 ++ ";"))
  writeErr := fun _ => none

/-- Stand-ins for the two functions of package `mb`: the event keeps the
metricset data, and the full event carries it with the timestamp. -/
def sampleDeps : Deps where
  TransformMapStrToEvent := fun _ m => ⟨m, ⟨0, 1, 1, 0, 0, 0, 0⟩, 0, "", ""⟩
  BeatEvent := fun e _ _ => ⟨e.Timestamp, some e.content⟩

/-- A metricset `cpu` of module `system`. -/
def sampleMetricSet : MetricSet :=
  ⟨"cpu", "system", "localhost", "system.cpu"⟩

/-- A fetcher whose `Fetch()` returns two events and no error. -/
def sampleFetcher : EventsFetcher :=
  ⟨sampleMetricSet, ([[("idle", .other "0.5")], [("user", .other "0.25")]], none)⟩

/-- A condition: the event has a field `user`. -/
def hasUser (m : MapStr) : Bool :=
  (m.get? "user").isSome
/-! ## Lemmas on logs and schedules -/

theorem emitted_append (t u : List (Obs Ev)) : emitted (t ++ u) = emitted t ++ emitted u := by
  induction t with
  | nil => rfl
  | cons o t ih => cases o <;> simp [emitted, ih]

theorem publishedIn_append (t u : List (Obs Ev)) :
    publishedIn (t ++ u) = publishedIn t ++ publishedIn u := by
  induction t with
  | nil => rfl
  | cons o t ih => cases o <;> simp [publishedIn, ih]

theorem run_append (s : Sys Ev) (l₁ l₂ : List (Action Ev)) :
    run s (l₁ ++ l₂) = run (run s l₁) l₂ := by
  induction l₁ generalizing s with
  | nil => rfl
  | cons a l ih => simp [run, ih]

theorem run_snoc (s : Sys Ev) (l : List (Action Ev)) (a : Action Ev) :
    run s (l ++ [a]) = next (run s l) a := by
  simp [run_append, run]

theorem inv_init (c : Client Ev) (mod : Wrapper) : Inv c (NewRunner c mod) := by
  simp [Inv, NewRunner, StartOK, StopOK, ChanOK, stopStage, emitted, publishedIn,
    Task.isExited, Task.inflight, Chan.pending]

set_option maxHeartbeats 1600000 in
theorem inv_next {c : Client Ev} {s : Sys Ev} (h : Inv c s) (a : Action Ev) :
    Inv c (next s a) := by
  obtain ⟨⟨done, wg, so, sto, mod, cl⟩, pc, out, tk, pan, tr⟩ := s
  obtain ⟨hp, h⟩ := h
  dsimp only at hp
  subst hp
  cases a with
  | call c =>
    cases c <;> cases pc <;> cases so <;> cases sto <;>
      simp [Inv, Beats.next, step, invoke, StartOK, StopOK, ChanOK, stopStage,
        Obs.isModStart, Obs.isSpawn, Obs.isRaise, Obs.isSinkClose, Obs.isWaited, Obs.isShutdown,
        emitted_append, publishedIn_append, emitted, publishedIn,
        Task.isExited, Task.running, Task.inflight, Chan.pending, Chan.isClosed,
        -List.countP_eq_zero] at h ⊢ <;> first | exact h | simp_all
  | caller =>
    cases pc <;> cases so <;> cases sto <;> cases done <;>
      rcases wg with _ | wg <;>
      simp [Inv, Beats.next, step, callerStep, Start_modStart, Start_wgAdd, Start_go,
        Stop_closeDone, Stop_clientClose, Stop_wgWait, StartOK, StopOK, ChanOK, stopStage,
        Obs.isModStart, Obs.isSpawn, Obs.isRaise, Obs.isSinkClose, Obs.isWaited, Obs.isShutdown,
        emitted_append, publishedIn_append, emitted, publishedIn,
        Task.isExited, Task.running, Task.inflight, Chan.pending, Chan.isClosed,
        -List.countP_eq_zero] at h ⊢ <;> first | exact h | omega | (simp_all <;> omega)
  | task =>
    rcases tk with _ | _ | e | _ <;> rcases out with _ | ⟨_ | ⟨e', buf⟩, _ | _⟩ <;>
      cases so <;> rcases wg with _ | wg <;>
      simp [Inv, Beats.next, step, PublishChannels, wgDone, StartOK, StopOK, ChanOK, stopStage,
        Obs.isModStart, Obs.isSpawn, Obs.isRaise, Obs.isSinkClose, Obs.isWaited, Obs.isShutdown,
        emitted_append, publishedIn_append, emitted, publishedIn,
        Task.isExited, Task.running, Task.inflight, Chan.pending, Chan.isClosed,
        -List.countP_eq_zero] at h ⊢ <;> first | exact h | omega | simp_all
  | modSend e =>
    rcases out with _ | ⟨buf, _ | _⟩ <;>
      simp [Inv, Beats.next, step, modSend, StartOK, StopOK, ChanOK, stopStage,
        Obs.isModStart, Obs.isSpawn, Obs.isRaise, Obs.isSinkClose, Obs.isWaited, Obs.isShutdown,
        emitted_append, publishedIn_append, emitted, publishedIn,
        Task.isExited, Task.running, Task.inflight, Chan.pending, Chan.isClosed,
        -List.countP_eq_zero] at h ⊢ <;> first | exact h | omega | simp_all
  | modClose =>
    rcases out with _ | ⟨buf, _ | _⟩ <;>
      simp [Inv, Beats.next, step, modClose, StartOK, StopOK, ChanOK, stopStage,
        Obs.isModStart, Obs.isSpawn, Obs.isRaise, Obs.isSinkClose, Obs.isWaited, Obs.isShutdown,
        emitted_append, publishedIn_append, emitted, publishedIn,
        Task.isExited, Task.running, Task.inflight, Chan.pending, Chan.isClosed,
        -List.countP_eq_zero] at h ⊢ <;> first | exact h | omega | simp_all

theorem inv_run {c : Client Ev} {s : Sys Ev} (h : Inv c s) (l : List (Action Ev)) :
    Inv c (run s l) := by
  induction l generalizing s with
  | nil => exact h
  | cons a l ih => exact ih (inv_next h a)

/-! ## Stop after Start -/

theorem stopAfterStart_initial (t u : List (Obs Ev)) (h : stopAfterStart (t ++ u) = true) :
    stopAfterStart t = true := by
  induction t with
  | nil => rfl
  | cons o t ih =>
    cases o with
    | call c => cases c <;> simp_all [stopAfterStart]
    | ret c => cases c <;> simp_all [stopAfterStart]
    | _ => simp_all [stopAfterStart]

theorem stopAfterStart_stop (t u : List (Obs Ev))
    (h : stopAfterStart (t ++ Obs.call .stop :: u) = true) : Obs.ret .start ∈ t := by
  induction t with
  | nil => simp [stopAfterStart] at h
  | cons o t ih =>
    cases o with
    | call c => cases c <;> simp_all [stopAfterStart]
    | ret c => cases c <;> simp_all [stopAfterStart]
    | _ => simp_all [stopAfterStart]

theorem quiet_of_not_mem (tr : List (Obs Ev)) (h : Obs.ret .stop ∉ tr) : QuietAfterStop tr := by
  intro a b hab
  exact absurd (by simp [hab]) h

theorem quiet_append (tr l : List (Obs Ev)) (h : QuietAfterStop tr)
    (hl : ∀ e, Obs.publish e ∉ l) : QuietAfterStop (tr ++ l) := by
  intro a b hab e he
  rcases List.append_eq_append_iff.mp hab with ⟨a', rfl, hl'⟩ | ⟨c', rfl, hc⟩
  · exact hl e (by simp [hl', he])
  · cases c' with
    | nil => exact hl e (by simp at hc; simp [← hc, he])
    | cons x c'' =>
      simp at hc
      obtain ⟨rfl, rfl⟩ := hc
      rcases List.mem_append.mp he with h1 | h1
      · exact h a c'' rfl e h1
      · exact hl e h1

theorem trace_next (s : Sys Ev) (a : Action Ev) : ∃ l, (next s a).trace = s.trace ++ l := by
  obtain ⟨⟨done, wg, so, sto, mod, cl⟩, pc, out, tk, pan, tr⟩ := s
  cases pan
  · cases a with
    | call c =>
      cases c <;> cases pc <;> cases so <;> cases sto <;> simp [Beats.next, step, invoke]
    | caller =>
      cases pc <;> cases done <;> rcases wg with _ | wg <;>
        simp [Beats.next, step, callerStep, Start_modStart, Start_wgAdd, Start_go,
          Stop_closeDone, Stop_clientClose, Stop_wgWait]
    | task =>
      rcases tk with _ | _ | e | _ <;> rcases out with _ | ⟨_ | ⟨e', buf⟩, _ | _⟩ <;>
        rcases wg with _ | wg <;> simp [Beats.next, step, PublishChannels, wgDone]
    | modSend e => rcases out with _ | ⟨buf, _ | _⟩ <;> simp [Beats.next, step, modSend]
    | modClose => rcases out with _ | ⟨buf, _ | _⟩ <;> simp [Beats.next, step, modClose]
  · exact ⟨[], by simp [Beats.next, step]⟩

set_option maxHeartbeats 1600000 in
theorem ordered_next {c : Client Ev} {s : Sys Ev} (hI : Inv c s) (hO : Ordered s)
    (a : Action Ev) (hH : stopAfterStart (Beats.next s a).trace = true) : Ordered (Beats.next s a) := by
  have key : ∀ u, (Beats.next s a).trace = s.trace ++ Obs.call .stop :: u → Obs.ret .start ∈ s.trace :=
    fun u hu => stopAfterStart_stop _ u (hu ▸ hH)
  clear hH
  obtain ⟨⟨done, wg, so, sto, mod, cl⟩, pc, out, tk, pan, tr⟩ := s
  obtain ⟨hp, hS, hT, -⟩ := hI
  dsimp only at hp
  subst hp
  cases a with
  | call c =>
    cases c <;> cases pc <;> cases so <;> cases sto <;>
      simp [Beats.next, step, invoke, StartOK, StopOK, Ordered, stopStage,
        -List.countP_eq_zero] at hS hT hO key ⊢ <;>
      first
        | exact hO
        | (simp_all [quiet_append])
  | caller =>
    cases pc <;> cases so <;> cases sto <;> cases done <;> rcases wg with _ | wg <;>
      simp [Beats.next, step, callerStep, Start_modStart, Start_wgAdd, Start_go,
        Stop_closeDone, Stop_clientClose, Stop_wgWait, StartOK, StopOK, Ordered, stopStage,
        -List.countP_eq_zero] at hS hT hO key ⊢ <;>
      first
        | exact hO
        | (simp_all [quiet_append, quiet_of_not_mem, Task.isExited, Task.running]; done)
        | (rcases tk with _ | _ | e | _ <;>
            simp_all [quiet_append, quiet_of_not_mem, Task.isExited, Task.running])
  | task =>
    rcases tk with _ | _ | e | _ <;> rcases out with _ | ⟨_ | ⟨e', buf⟩, _ | _⟩ <;>
      cases so <;> rcases wg with _ | wg <;>
      simp [Beats.next, step, PublishChannels, wgDone, StartOK, StopOK, Ordered, stopStage,
        Task.isExited, Task.running, -List.countP_eq_zero] at hS hT hO key ⊢ <;>
      first
        | exact hO
        | (simp_all [quiet_append, quiet_of_not_mem, Task.isExited, Task.running])
  | modSend e =>
    rcases out with _ | ⟨buf, _ | _⟩ <;>
      simp [Beats.next, step, modSend, StartOK, StopOK, Ordered, stopStage,
        -List.countP_eq_zero] at hS hT hO key ⊢ <;>
      first
        | exact hO
        | (simp_all [quiet_append, quiet_of_not_mem, Task.isExited, Task.running])
  | modClose =>
    rcases out with _ | ⟨buf, _ | _⟩ <;>
      simp [Beats.next, step, modClose, StartOK, StopOK, Ordered, stopStage,
        -List.countP_eq_zero] at hS hT hO key ⊢ <;>
      first
        | exact hO
        | (simp_all [quiet_append, quiet_of_not_mem, Task.isExited, Task.running])

theorem ordered_init (c : Client Ev) (mod : Wrapper) : Ordered (NewRunner c mod) := by
  simp [Ordered, NewRunner, QuietAfterStop]

theorem ordered_run (c : Client Ev) (mod : Wrapper) (l : List (Action Ev))
    (hH : stopAfterStart (Beats.run (NewRunner c mod) l).trace = true) :
    Ordered (Beats.run (NewRunner c mod) l) := by
  induction l using List.reverseRecOn with
  | nil => exact ordered_init c mod
  | append_singleton l a ih =>
    rw [run_snoc] at hH ⊢
    obtain ⟨u, hu⟩ := trace_next (Beats.run (NewRunner c mod) l) a
    exact ordered_next (inv_run (inv_init c mod) l)
      (ih (stopAfterStart_initial _ u (hu ▸ hH))) a hH

/-! ## Start and Stop run their bodies once -/

theorem done_next (s : Sys Ev) (a : Action Ev) (h : s.mr.done = true) :
    (Beats.next s a).mr.done = true := by
  obtain ⟨⟨done, wg, so, sto, mod, cl⟩, pc, out, tk, pan, tr⟩ := s
  dsimp only at h
  subst h
  cases pan
  · cases a with
    | call c =>
      cases c <;> cases pc <;> cases so <;> cases sto <;> simp [Beats.next, step, invoke]
    | caller =>
      cases pc <;> rcases wg with _ | wg <;>
        simp [Beats.next, step, callerStep, Start_modStart, Start_wgAdd, Start_go,
          Stop_closeDone, Stop_clientClose, Stop_wgWait]
    | task =>
      rcases tk with _ | _ | e | _ <;> rcases out with _ | ⟨_ | ⟨e', buf⟩, _ | _⟩ <;>
        rcases wg with _ | wg <;> simp [Beats.next, step, PublishChannels, wgDone]
    | modSend e => rcases out with _ | ⟨buf, _ | _⟩ <;> simp [Beats.next, step, modSend]
    | modClose => rcases out with _ | ⟨buf, _ | _⟩ <;> simp [Beats.next, step, modClose]
  · simp [Beats.next, step]

theorem done_run (s : Sys Ev) (l : List (Action Ev)) (h : s.mr.done = true) :
    (Beats.run s l).mr.done = true := by
  induction l generalizing s with
  | nil => exact h
  | cons a l ih => exact ih _ (done_next s a h)

theorem inv_reached (c : Client Ev) (mod : Wrapper) (sched : List (Action Ev)) :
    Inv c (Beats.reached c mod sched) :=
  inv_run (inv_init c mod) sched

/-- Claim C1: in every state reached from a fresh runner, under every schedule
of calls, goroutine steps and module steps, `mod.Start` has been executed at
most once and at most one forwarding goroutine has been started; as soon as one
call of `Start()` has returned, both have happened exactly once, and a further
call of `Start()` returns at once and changes nothing but the log of calls. -/
theorem start_once (c : Client Ev) (mod : Wrapper) (sched : List (Action Ev)) :
    (reached c mod sched).trace.countP Obs.isModStart ≤ 1 ∧
    (reached c mod sched).trace.countP Obs.isSpawn ≤ 1 ∧
    (Obs.ret .start ∈ (reached c mod sched).trace →
      (reached c mod sched).trace.countP Obs.isModStart = 1 ∧
      (reached c mod sched).trace.countP Obs.isSpawn = 1 ∧
      ((reached c mod sched).pc = .idle →
        step (reached c mod sched) (.call .start) =
          some { reached c mod sched with
            trace := (reached c mod sched).trace ++ [.call .start, .ret .start] })) := by
  obtain ⟨hp, hS, -, -⟩ := inv_reached c mod sched
  generalize reached c mod sched = s at hp hS
  obtain ⟨⟨done, wg, so, sto, mod, cl⟩, pc, out, tk, pan, tr⟩ := s
  dsimp only at hp
  subst hp
  cases so <;> cases pc <;>
    simp [StartOK, step, invoke, -List.countP_eq_zero] at hS ⊢ <;>
    first | omega | simp_all [-List.countP_eq_zero]

/-- Claim C2: in every state reached from a fresh runner no panic has occurred
(the closed `done` channel is never closed again), `done` has been closed at
most once and `client.Close()` called at most once; as soon as one call of
`Stop()` has returned, or waits for the goroutine, both have happened exactly
once; and a closed `done` stays closed under every continuation. -/
theorem stop_once (c : Client Ev) (mod : Wrapper) (sched : List (Action Ev)) :
    (reached c mod sched).panicked = false ∧
    (reached c mod sched).trace.countP Obs.isRaise ≤ 1 ∧
    (reached c mod sched).trace.countP Obs.isSinkClose ≤ 1 ∧
    (reached c mod sched).mr.client.closed =
      c.closed + (reached c mod sched).trace.countP Obs.isSinkClose ∧
    (Obs.ret .stop ∈ (reached c mod sched).trace ∨ (reached c mod sched).pc = .stopWgWait →
      (reached c mod sched).trace.countP Obs.isRaise = 1 ∧
      (reached c mod sched).trace.countP Obs.isSinkClose = 1 ∧
      (reached c mod sched).mr.done = true) ∧
    (∀ more, (reached c mod sched).mr.done = true →
      (run (reached c mod sched) more).mr.done = true) := by
  obtain ⟨hp, -, hT, -⟩ := inv_reached c mod sched
  refine ⟨hp, ?_, ?_, hT.1, ?_, fun more h => done_run _ more h⟩
  all_goals
    generalize reached c mod sched = s at hp hT
    obtain ⟨⟨done, wg, so, sto, mod, cl⟩, pc, out, tk, pan, tr⟩ := s
    cases sto <;> cases pc <;>
      simp [StopOK, stopStage, -List.countP_eq_zero] at hT ⊢ <;>
      first | omega | simp_all [-List.countP_eq_zero]

theorem start_once_witness :
    Obs.ret .start ∈ (reached (⟨[], 0, false⟩ : Client Nat) ⟨"system", []⟩
      [.call .start, .caller, .caller, .caller, .call .start, .call .stop, .call .start]).trace ∧
    (reached (⟨[], 0, false⟩ : Client Nat) ⟨"system", []⟩
      [.call .start, .caller, .caller, .caller, .call .start, .call .stop, .call .start]
      ).trace.countP Obs.isModStart = 1 ∧
    (reached (⟨[], 0, false⟩ : Client Nat) ⟨"system", []⟩
      [.call .start, .caller, .caller, .caller, .call .start, .call .stop, .call .start]
      ).trace.countP Obs.isSpawn = 1 :=
  ⟨by decide,
    ((start_once (⟨[], 0, false⟩ : Client Nat) ⟨"system", []⟩
      [.call .start, .caller, .caller, .caller, .call .start, .call .stop, .call .start]).2.2
      (by decide)).1,
    ((start_once (⟨[], 0, false⟩ : Client Nat) ⟨"system", []⟩
      [.call .start, .caller, .caller, .caller, .call .start, .call .stop, .call .start]).2.2
      (by decide)).2.1⟩

theorem stop_once_witness :
    Obs.ret .stop ∈ (reached (⟨[], 0, false⟩ : Client Nat) ⟨"system", []⟩
      [.call .stop, .caller, .caller, .caller, .call .stop, .call .start, .call .stop]).trace ∧
    (reached (⟨[], 0, false⟩ : Client Nat) ⟨"system", []⟩
      [.call .stop, .caller, .caller, .caller, .call .stop, .call .start, .call .stop]
      ).trace.countP Obs.isRaise = 1 ∧
    (reached (⟨[], 0, false⟩ : Client Nat) ⟨"system", []⟩
      [.call .stop, .caller, .caller, .caller, .call .stop, .call .start, .call .stop]
      ).trace.countP Obs.isSinkClose = 1 :=
  ⟨by decide,
    ((stop_once (⟨[], 0, false⟩ : Client Nat) ⟨"system", []⟩
      [.call .stop, .caller, .caller, .caller, .call .stop, .call .start, .call .stop]).2.2.2.2.1
      (Or.inl (by decide))).1,
    ((stop_once (⟨[], 0, false⟩ : Client Nat) ⟨"system", []⟩
      [.call .stop, .caller, .caller, .caller, .call .stop, .call .start, .call .stop]).2.2.2.2.1
      (Or.inl (by decide))).2.1⟩

/-! ## After Stop has returned -/

theorem isExited_iff (tk : Option (Task Ev)) : Task.isExited tk = true ↔ tk = some .exited := by
  rcases tk with _ | _ | e | _ <;> simp [Task.isExited]

theorem exited_next {c : Client Ev} {s : Sys Ev} (hI : Inv c s) (a : Action Ev)
    (h : Task.isExited s.task = true) :
    Task.isExited (Beats.next s a).task = true ∧
    (Beats.next s a).mr.client.published = s.mr.client.published := by
  obtain ⟨-, hS, -, -⟩ := hI
  obtain ⟨⟨done, wg, so, sto, mod, cl⟩, pc, out, tk, pan, tr⟩ := s
  rcases tk with _ | _ | e | _ <;> simp [Task.isExited] at h
  cases pan
  · cases a with
    | call c =>
      cases c <;> cases pc <;> cases so <;> cases sto <;>
        simp [Beats.next, step, invoke, Task.isExited]
    | caller =>
      cases pc <;> cases so <;> cases done <;> rcases wg with _ | wg <;>
        simp [Beats.next, step, callerStep, Start_modStart, Start_wgAdd, Start_go,
          Stop_closeDone, Stop_clientClose, Stop_wgWait, Task.isExited, StartOK] at hS ⊢
    | task =>
      rcases out with _ | ⟨_ | ⟨e', buf⟩, _ | _⟩ <;>
        simp [Beats.next, step, PublishChannels, Task.isExited]
    | modSend e =>
      rcases out with _ | ⟨buf, _ | _⟩ <;> simp [Beats.next, step, modSend, Task.isExited]
    | modClose =>
      rcases out with _ | ⟨buf, _ | _⟩ <;> simp [Beats.next, step, modClose, Task.isExited]
  · simp [Beats.next, step, Task.isExited]

theorem exited_run {c : Client Ev} {s : Sys Ev} (hI : Inv c s) (l : List (Action Ev))
    (h : Task.isExited s.task = true) :
    Task.isExited (Beats.run s l).task = true ∧
    (Beats.run s l).mr.client.published = s.mr.client.published := by
  induction l generalizing s with
  | nil => exact ⟨h, rfl⟩
  | cons a l ih =>
    obtain ⟨h1, h2⟩ := exited_next hI a h
    obtain ⟨h3, h4⟩ := ih (inv_next hI a) h1
    exact ⟨h3, h4.trans h2⟩

/-- Claim C3, as stated, fails: `Stop()` is called on a fresh runner and returns
(nothing to wait for), then `Start()` is called; at that point the goroutine is
running, and the event 7 that the module sends next is published after the
return of `Stop()`. -/
theorem stop_before_start_publishes :
    (reached (⟨[], 0, false⟩ : Client Nat) ⟨"system", []⟩
      [.call .stop, .caller, .caller, .caller, .call .start, .caller, .caller, .caller]).task
        = some .receiving ∧
    (reached (⟨[], 0, false⟩ : Client Nat) ⟨"system", []⟩
      [.call .stop, .caller, .caller, .caller, .call .start, .caller, .caller, .caller,
       .modSend 7, .task, .task]).trace
        = [.call .stop, .raise, .sinkClose, .waited, .ret .stop,
           .call .start, .modStart true, .spawn, .ret .start, .emit 7, .publish 7] ∧
    ¬ QuietAfterStop (reached (⟨[], 0, false⟩ : Client Nat) ⟨"system", []⟩
      [.call .stop, .caller, .caller, .caller, .call .start, .caller, .caller, .caller,
       .modSend 7, .task, .task]).trace := by
  refine ⟨by decide, by decide, fun h => ?_⟩
  exact h [.call .stop, .raise, .sinkClose, .waited]
    [.call .start, .modStart true, .spawn, .ret .start, .emit 7, .publish 7] (by decide) 7
    (by decide)

/-- Claim C3, amended: when a call of `Start()` has returned before `Stop()` is
first called, then in every reached state in which a call of `Stop()` has
returned the forwarding goroutine has terminated, no `Publish` is logged after
any return of `Stop()`, and no continuation changes what the client has
recorded. -/
theorem quiet_after_stop (c : Client Ev) (mod : Wrapper) (sched : List (Action Ev))
    (h : stopAfterStart (reached c mod sched).trace = true) :
    (Obs.ret .stop ∈ (reached c mod sched).trace →
      (reached c mod sched).task = some .exited ∧
      ∀ more, (run (reached c mod sched) more).mr.client.published =
        (reached c mod sched).mr.client.published) ∧
    QuietAfterStop (reached c mod sched).trace := by
  obtain ⟨-, h2, h3⟩ := ordered_run c mod sched h
  exact ⟨fun hr => ⟨(isExited_iff _).mp (h2 hr),
    fun more => (exited_run (inv_reached c mod sched) more (h2 hr)).2⟩, h3⟩

theorem quiet_after_stop_witness :
    stopAfterStart (reached (⟨[], 0, false⟩ : Client Nat) ⟨"system", []⟩
      [.call .start, .caller, .caller, .caller, .modSend 7, .call .stop, .caller, .caller,
       .task, .task, .modClose, .task, .caller]).trace = true ∧
    Obs.ret .stop ∈ (reached (⟨[], 0, false⟩ : Client Nat) ⟨"system", []⟩
      [.call .start, .caller, .caller, .caller, .modSend 7, .call .stop, .caller, .caller,
       .task, .task, .modClose, .task, .caller]).trace ∧
    (reached (⟨[], 0, false⟩ : Client Nat) ⟨"system", []⟩
      [.call .start, .caller, .caller, .caller, .modSend 7, .call .stop, .caller, .caller,
       .task, .task, .modClose, .task, .caller]).task = some .exited :=
  ⟨by decide, by decide,
    ((quiet_after_stop _ _ _ (by decide)).1 (by decide)).1⟩

/-! ## Forwarding -/

theorem run_of_exec (s t : Sys Ev) (l : List (Action Ev)) (h : exec s l = some t) :
    Beats.run s l = t := by
  induction l generalizing s with
  | nil => simpa [exec] using h
  | cons a l ih =>
    simp only [exec] at h
    cases hs : step s a with
    | none => simp [hs] at h
    | some u =>
      rw [hs] at h
      simp only [Beats.run, Beats.next, hs, Option.getD_some]
      exact ih u h

theorem exec_append (s : Sys Ev) (l₁ l₂ : List (Action Ev)) :
    exec s (l₁ ++ l₂) = (exec s l₁).bind fun t => exec t l₂ := by
  induction l₁ generalizing s with
  | nil => simp [exec]
  | cons a l ih =>
    cases hs : step s a with
    | none => simp [exec, hs]
    | some u => simp [exec, hs, ih]

theorem exec_pump (mr : runner Ev) (pc : Pc) (tr : List (Obs Ev)) (es : List Ev) :
    exec ⟨mr, pc, some ⟨[], false⟩, some .receiving, false, tr⟩
        (es.flatMap fun e => [.modSend e, .task, .task]) =
      some ⟨{ mr with client := { mr.client with published := mr.client.published ++ es } }, pc,
        some ⟨[], false⟩, some .receiving, false,
        tr ++ es.flatMap fun e => [.emit e, .publish e]⟩ := by
  induction es generalizing mr tr with
  | nil => simp [exec]
  | cons e es ih =>
    simp only [List.flatMap_cons, exec_append]
    simp [exec, step, modSend, PublishChannels, ih]

theorem exec_scenario (c : Client Ev) (mod : Wrapper) (es : List Ev) :
    exec (NewRunner c mod) (scenario es) =
      some ⟨⟨true, 0, true, true, mod, ⟨c.published ++ es, c.closed + 1, c.closeErr⟩⟩, .idle,
        some ⟨[], true⟩, some .exited, false,
        [.call .start, .modStart false, .spawn, .ret .start] ++
          (es.flatMap fun e => [.emit e, .publish e]) ++
          [.srcClose, .taskExit, .call .stop, .raise, .sinkClose, .waited, .ret .stop]⟩ := by
  simp only [scenario, exec_append]
  simp [exec, step, NewRunner, invoke, callerStep, Start_modStart, Start_wgAdd, Start_go,
    exec_pump, modClose, PublishChannels, wgDone, Stop_closeDone, Stop_clientClose, Stop_wgWait]

theorem emitted_pump (es : List Ev) :
    emitted (es.flatMap fun e => [Obs.emit e, Obs.publish e]) = es := by
  induction es with
  | nil => rfl
  | cons e es ih =>
    rw [List.flatMap_cons]
    show e :: emitted (es.flatMap fun e => [Obs.emit e, Obs.publish e]) = e :: es
    rw [ih]

/-- Claim C4: when a `Start()` has returned before `Stop()` is first called and a
`Stop()` has returned, the client has recorded exactly the events the module
sent on its output channel (`es`), in the same order, and `Close()` has been
called exactly once; and for every list `es` the schedule `scenario es` (the
module sends `es` and closes its source) runs without any blocked step to such a
state. With `es = []` nothing is published. -/
theorem forwards_in_order (c : Client Ev) (mod : Wrapper) (es : List Ev) :
    (∀ sched, stopAfterStart (reached c mod sched).trace = true →
      Obs.ret .stop ∈ (reached c mod sched).trace →
      emitted (reached c mod sched).trace = es →
        publishedIn (reached c mod sched).trace = es ∧
        (reached c mod sched).mr.client.published = c.published ++ es ∧
        (reached c mod sched).trace.countP Obs.isSinkClose = 1 ∧
        (reached c mod sched).mr.client.closed = c.closed + 1) ∧
    exec (NewRunner c mod) (scenario es) = some (reached c mod (scenario es)) ∧
    stopAfterStart (reached c mod (scenario es)).trace = true ∧
    Obs.ret .stop ∈ (reached c mod (scenario es)).trace ∧
    emitted (reached c mod (scenario es)).trace = es := by
  have hrun := run_of_exec _ _ _ (exec_scenario c mod es)
  refine ⟨fun sched hH hr he => ?_, ?_, ?_, ?_, ?_⟩
  · obtain ⟨-, -, hT, hC⟩ := inv_reached c mod sched
    have hx : Task.isExited (reached c mod sched).task = true :=
      (ordered_run c mod sched hH).2.1 hr
    obtain ⟨h1, h2, h3⟩ := hC
    obtain ⟨hcl, -, -, hif⟩ := hT
    have hinf : Task.inflight (reached c mod sched).task = [] := by
      rw [(isExited_iff _).mp hx]; rfl
    rw [(h3 hx).2, hinf, List.append_nil, List.append_nil, he] at h2
    split at hif
    · exact ⟨h2.symm, by rw [h1, ← h2], hif.2.2.2.2.2.1, by rw [hcl, hif.2.2.2.2.2.1]⟩
    · exact absurd hr hif.2.1
  · rw [reached, hrun]; exact exec_scenario c mod es
  · rw [reached, hrun]; rfl
  · rw [reached, hrun]; simp
  · rw [reached, hrun]; simp [emitted_append, emitted, emitted_pump]

theorem forwards_in_order_witness :
    (reached (⟨[], 0, false⟩ : Client String) ⟨"system", []⟩
      (scenario ["A", "B"])).mr.client.published = ["A", "B"] ∧
    (reached (⟨[], 0, false⟩ : Client String) ⟨"system", []⟩
      (scenario ["A", "B"])).mr.client.closed = 1 :=
  have h := forwards_in_order (⟨[], 0, false⟩ : Client String) ⟨"system", []⟩ ["A", "B"]
  have h' := h.1 (scenario ["A", "B"]) h.2.2.1 h.2.2.2.1 h.2.2.2.2
  ⟨by simpa using h'.2.1, by simpa using h'.2.2.2⟩

/-! ## Stop before Start -/

/-- Claim C5: on a fresh runner the four steps of `Stop()` are all enabled (the
wait finds the counter at zero, there is no goroutine), they close `done`, call
`client.Close()` once and return; a following `Start()` still runs `mod.Start`,
exactly once, with `done` already closed, and starts the goroutine. -/
theorem stop_then_start (c : Client Ev) (mod : Wrapper) :
    exec (NewRunner c mod) [.call .stop, .caller, .caller, .caller] =
      some ⟨⟨true, 0, false, true, mod, ⟨c.published, c.closed + 1, c.closeErr⟩⟩, .idle,
        none, none, false, [.call .stop, .raise, .sinkClose, .waited, .ret .stop]⟩ ∧
    exec (NewRunner c mod)
        [.call .stop, .caller, .caller, .caller, .call .start, .caller, .caller, .caller] =
      some ⟨⟨true, 1, true, true, mod, ⟨c.published, c.closed + 1, c.closeErr⟩⟩, .idle,
        some ⟨[], false⟩, some .receiving, false,
        [.call .stop, .raise, .sinkClose, .waited, .ret .stop,
         .call .start, .modStart true, .spawn, .ret .start]⟩ ∧
    (reached c mod
        [.call .stop, .caller, .caller, .caller, .call .start, .caller, .caller, .caller]
      ).trace.countP Obs.isModStart = 1 := by
  refine ⟨rfl, rfl, rfl⟩

/-! ## The diagnostic descriptor -/

/-- Claim C6: `String()` returns the module name, then `" [metricsets="`, then
the number of metricsets in decimal, then `"]"`, and leaves the state as it
was; for the module `system` with three metricsets this is
`"system [metricsets=3]"`. -/
theorem String_renders (s : Sys Ev) :
    (runner.String s).1 =
      s.mr.mod.name ++ " [metricsets=" ++ Nat.repr s.mr.mod.metricSets.length ++ "]" ∧
    (runner.String s).2 = s ∧
    (runner.String (NewRunner (⟨[], 0, false⟩ : Client Nat) ⟨"system", ["cpu", "load", "memory"]⟩)).1
      = "system [metricsets=3]" := by
  refine ⟨?_, rfl, by decide⟩
  apply String.ext
  simp [runner.String, Sprintf, String.data_append]
  rfl

/-! ## Order of the shutdown steps -/

theorem withCloseErr_next (b : Bool) (s : Sys Ev) (a : Action Ev) :
    Beats.next (withCloseErr b s) a = withCloseErr b (Beats.next s a) := by
  obtain ⟨⟨done, wg, so, sto, mod, cl⟩, pc, out, tk, pan, tr⟩ := s
  cases pan
  · cases a with
    | call c =>
      cases c <;> cases pc <;> cases so <;> cases sto <;>
        simp [Beats.next, step, invoke, withCloseErr]
    | caller =>
      cases pc <;> cases done <;> rcases wg with _ | wg <;>
        simp [Beats.next, step, callerStep, Start_modStart, Start_wgAdd, Start_go,
          Stop_closeDone, Stop_clientClose, Stop_wgWait, withCloseErr]
    | task =>
      rcases tk with _ | _ | e | _ <;> rcases out with _ | ⟨_ | ⟨e', buf⟩, _ | _⟩ <;>
        rcases wg with _ | wg <;> simp [Beats.next, step, PublishChannels, wgDone, withCloseErr]
    | modSend e =>
      rcases out with _ | ⟨buf, _ | _⟩ <;> simp [Beats.next, step, modSend, withCloseErr]
    | modClose =>
      rcases out with _ | ⟨buf, _ | _⟩ <;> simp [Beats.next, step, modClose, withCloseErr]
  · simp [Beats.next, step, withCloseErr]

theorem withCloseErr_run (b : Bool) (s : Sys Ev) (l : List (Action Ev)) :
    Beats.run (withCloseErr b s) l = withCloseErr b (Beats.run s l) := by
  induction l generalizing s with
  | nil => rfl
  | cons a l ih => simp only [Beats.run, withCloseErr_next, ih]

/-- Claim C10: in every reached state the effects of the body of `Stop` that
have happened are an initial part of `close(done)`, `client.Close()`, return of
`wg.Wait()`, in this order; the caller stands in front of the wait only after
`Close` has been called; each statement leads to the next, the wait being
enabled exactly when the counter is zero; and the answer of `Close` (error or
not) changes nothing in the run. -/
theorem shutdown_order (c : Client Ev) (mod : Wrapper) (sched : List (Action Ev)) :
    (reached c mod sched).trace.filter Obs.isShutdown =
      [Obs.raise, Obs.sinkClose, Obs.waited].take (stopStage (reached c mod sched)) ∧
    ((reached c mod sched).pc = .stopCloseDone →
      step (reached c mod sched) .caller = some { reached c mod sched with
        mr := { (reached c mod sched).mr with done := true }, pc := .stopClientClose,
        trace := (reached c mod sched).trace ++ [.raise] }) ∧
    ((reached c mod sched).pc = .stopClientClose →
      step (reached c mod sched) .caller = some { reached c mod sched with
        mr := { (reached c mod sched).mr with client := { (reached c mod sched).mr.client with
          closed := (reached c mod sched).mr.client.closed + 1 } },
        pc := .stopWgWait, trace := (reached c mod sched).trace ++ [.sinkClose] }) ∧
    ((reached c mod sched).pc = .stopWgWait →
      (reached c mod sched).trace.countP Obs.isSinkClose = 1 ∧
      (reached c mod sched).trace.countP Obs.isWaited = 0 ∧
      ((reached c mod sched).mr.wg ≠ 0 → step (reached c mod sched) .caller = none) ∧
      ((reached c mod sched).mr.wg = 0 →
        step (reached c mod sched) .caller = some { reached c mod sched with
          mr := { (reached c mod sched).mr with stopOnce := true }, pc := .idle,
          trace := (reached c mod sched).trace ++ [.waited, .ret .stop] })) ∧
    (∀ b, reached { c with closeErr := b } mod sched = withCloseErr b (reached c mod sched)) := by
  obtain ⟨hp, hS, hT, -⟩ := inv_reached c mod sched
  refine ⟨hT.2.2.1, ?_, ?_, ?_, fun b => (withCloseErr_run b (NewRunner c mod) sched)⟩
  all_goals
    generalize reached c mod sched = s at hp hS hT
    obtain ⟨⟨done, wg, so, sto, mod, cl⟩, pc, out, tk, pan, tr⟩ := s
    dsimp only at hp
    subst hp
    cases pc <;> cases sto <;> cases so <;>
      simp [StopOK, StartOK, stopStage, step, callerStep, Stop_closeDone, Stop_clientClose,
        Stop_wgWait, -List.countP_eq_zero] at hS hT ⊢ <;>
      simp_all [-List.countP_eq_zero]

theorem shutdown_order_witness :
    (reached (⟨[], 0, true⟩ : Client Nat) ⟨"system", []⟩
      [.call .start, .caller, .caller, .caller, .call .stop, .caller, .caller]).pc
        = .stopWgWait ∧
    (reached (⟨[], 0, true⟩ : Client Nat) ⟨"system", []⟩
      [.call .start, .caller, .caller, .caller, .call .stop, .caller, .caller]
      ).trace.countP Obs.isSinkClose = 1 ∧
    step (reached (⟨[], 0, true⟩ : Client Nat) ⟨"system", []⟩
      [.call .start, .caller, .caller, .caller, .call .stop, .caller, .caller]) .caller = none :=
  ⟨by decide,
    ((shutdown_order (⟨[], 0, true⟩ : Client Nat) ⟨"system", []⟩
      [.call .start, .caller, .caller, .caller, .call .stop, .caller, .caller]).2.2.2.1
      (by decide)).1,
    ((shutdown_order (⟨[], 0, true⟩ : Client Nat) ⟨"system", []⟩
      [.call .start, .caller, .caller, .caller, .call .stop, .caller, .caller]).2.2.2.1
      (by decide)).2.2.1 (by decide)⟩

/-! ## The test-data generator -/

theorem MapStr.get?_set (m : MapStr) (k : String) (v : Value) :
    (MapStr.set m k v).get? k = some v := by
  induction m with
  | nil => simp [MapStr.set, MapStr.get?]
  | cons p m ih =>
    obtain ⟨k', v'⟩ := p
    by_cases h : k' = k
    · simp [MapStr.set, MapStr.get?, h]
    · simp [MapStr.set, MapStr.get?, h, ih]

theorem startTime_eq :
    parseRFC3339Nano "2017-10-12T08:05:34.853Z" = .ok ⟨2017, 10, 12, 8, 5, 34, 853000000⟩ := rfl

/-- Claim C7, checked against the code: for every metricset and every input
event, `StandardizeEvent` hands to `BeatEvent` an event whose timestamp is
2017-10-12T08:05:34.853Z and whose `Took` is 115 microseconds, whatever the
input held, and sets the `beat` field of the result to the name and hostname
`host.example.com`; the timestamp is not the documented
2016-05-23T08:05:34.853Z and `Took` is not the documented 155 microseconds. -/
theorem StandardizeEvent_constants (deps : Deps) (ms : MetricSet) (e : mb.Event) :
    StandardizeEvent deps ms e =
      setBeat (deps.BeatEvent (standardize ms e ⟨2017, 10, 12, 8, 5, 34, 853000000⟩)
        ms.moduleName ms.name) ∧
    (standardize ms e ⟨2017, 10, 12, 8, 5, 34, 853000000⟩).Timestamp =
      ⟨2017, 10, 12, 8, 5, 34, 853000000⟩ ∧
    (standardize ms e ⟨2017, 10, 12, 8, 5, 34, 853000000⟩).Took = 115 * Microsecond ∧
    (standardize ms e ⟨2017, 10, 12, 8, 5, 34, 853000000⟩).Host = ms.host ∧
    Except.ok (standardize ms e ⟨2017, 10, 12, 8, 5, 34, 853000000⟩).Timestamp ≠
      parseRFC3339Nano "2016-05-23T08:05:34.853Z" ∧
    (standardize ms e ⟨2017, 10, 12, 8, 5, 34, 853000000⟩).Took ≠ 155 * Microsecond ∧
    (∀ ev, StandardizeEvent deps ms e = .ok ev →
      ev.Fields.bind (fun m => m.get? "beat") =
        some (.map [("name", .str "host.example.com"), ("hostname", .str "host.example.com")])) := by
  have hT : ∀ t, (standardize ms e t).Timestamp = t ∧ (standardize ms e t).Took = 115 * Microsecond
      ∧ (standardize ms e t).Host = ms.host := by
    intro t
    unfold standardize
    dsimp only
    split <;> exact ⟨rfl, rfl, rfl⟩
  have h16 : parseRFC3339Nano "2016-05-23T08:05:34.853Z"
      = .ok ⟨2016, 5, 23, 8, 5, 34, 853000000⟩ := rfl
  have h1 : StandardizeEvent deps ms e =
      setBeat (deps.BeatEvent (standardize ms e ⟨2017, 10, 12, 8, 5, 34, 853000000⟩)
        ms.moduleName ms.name) := by
    unfold StandardizeEvent
    rw [startTime_eq]
  refine ⟨h1, (hT _).1, (hT _).2.1, (hT _).2.2, ?_, ?_, ?_⟩
  · rw [(hT _).1, h16]
    intro h
    injection h with h
    injection h with h
    exact absurd h (by decide)
  · rw [(hT _).2.1]
    decide
  · intro ev hev
    rw [h1] at hev
    unfold setBeat at hev
    split at hev
    · exact absurd hev (by simp)
    · next fields _ =>
      injection hev with hev
      subst hev
      simp [MapStr.get?_set]

theorem firstMatch_none (c : MapStr → Bool) (es : List MapStr) :
    firstMatch c es = none ↔ ∀ e ∈ es, c e = false := by
  induction es with
  | nil => simp [firstMatch]
  | cons e es ih =>
    by_cases h : c e = true
    · simp [firstMatch, h]
    · simp [firstMatch, h, ih]

theorem firstMatch_split (c : MapStr → Bool) (pre post : List MapStr) (e : MapStr)
    (hpre : ∀ x ∈ pre, c x = false) (he : c e = true) :
    firstMatch c (pre ++ e :: post) = some e := by
  induction pre with
  | nil => simp [firstMatch, he]
  | cons x pre ih =>
    have hx : c x = false := hpre x (by simp)
    simp only [List.cons_append, firstMatch, hx, Bool.false_eq_true, if_false]
    exact ih fun y hy => hpre y (by simp [hy])

theorem firstMatch_some (c : MapStr → Bool) (es : List MapStr) (e : MapStr)
    (h : firstMatch c es = some e) :
    ∃ pre post, es = pre ++ e :: post ∧ (∀ x ∈ pre, c x = false) ∧ c e = true := by
  induction es with
  | nil => simp [firstMatch] at h
  | cons x es ih =>
    by_cases hx : c x = true
    · simp only [firstMatch, hx, if_true, Option.some.injEq] at h
      subst h
      exact ⟨[], es, rfl, by simp, hx⟩
    · simp only [firstMatch, hx, if_false] at h
      obtain ⟨pre, post, h1, h2, h3⟩ := ih h
      refine ⟨x :: pre, post, by simp [h1], ?_, h3⟩
      intro y hy
      rcases List.mem_cons.mp hy with rfl | hy
      · simpa using hx
      · exact h2 y hy

theorem writeChosen_ret (env : Env) (deps : Deps) (w : World) (ms : MetricSet) (e : MapStr)
    (msg : String) : (writeChosen env deps w ms e).1 ≠ .ret (some msg) := by
  unfold writeChosen
  split
  · simp
  · split <;> simp

/-- Claim C8: with the `-data` flag set, `WriteEventsCond` returns a fetch error
unchanged and writes nothing; after a successful fetch of `es` it returns "no
events were generated" exactly when `es` is empty and "no events satisfied the
condition" exactly when `es` is not empty, `cond` is not nil and no event
satisfies it, writing nothing in both cases; otherwise it builds and writes the
full event of `es[0]` (nil `cond`) or of the first event satisfying `cond`, and
when the operations of the system succeed the file `_meta/data.json` of the
working directory receives the JSON text of that event. -/
theorem WriteEventsCond_spec (env : Env) (deps : Deps) (w : World) (f : EventsFetcher)
    (cond : Option (MapStr → Bool)) (hflag : env.dataFlag = true) :
    (∀ es err, f.fetch = (es, some err) →
      WriteEventsCond env deps w f cond = (.ret (some err), w)) ∧
    (∀ es, f.fetch = (es, none) →
      ((WriteEventsCond env deps w f cond).1 = .ret (some "no events were generated") ↔
        es = []) ∧
      ((WriteEventsCond env deps w f cond).1 = .ret (some "no events satisfied the condition") ↔
        es ≠ [] ∧ ∃ c, cond = some c ∧ ∀ e ∈ es, c e = false) ∧
      (es = [] ∨ (∃ c, cond = some c ∧ ∀ e ∈ es, c e = false) →
        (WriteEventsCond env deps w f cond).2 = w) ∧
      (cond = none → ∀ e rest, es = e :: rest →
        WriteEventsCond env deps w f cond = writeChosen env deps w f.ms e) ∧
      (∀ c pre e post, cond = some c → es = pre ++ e :: post →
        (∀ x ∈ pre, c x = false) → c e = true →
        WriteEventsCond env deps w f cond = writeChosen env deps w f.ms e)) ∧
    (∀ e full cwd fields out, CreateFullEvent deps f.ms e = .ok full →
      env.getwd = .ok cwd → full.Fields = some fields →
      env.marshalIndent (fields.set "@timestamp" (.time full.Timestamp)) = .ok out →
      env.writeErr (env.join [cwd, "", "_meta", "data.json"]) = none →
      writeChosen env deps w f.ms e =
        (.ret none, ⟨(env.join [cwd, "", "_meta", "data.json"], out) :: w.files⟩)) := by
  refine ⟨fun es err hf => ?_, fun es hf => ?_, fun e full cwd fields out h1 h2 h3 h4 h5 => ?_⟩
  · simp [WriteEventsCond, hflag, hf]
  · cases es with
    | nil =>
      simp [WriteEventsCond, hflag, hf]
    | cons e0 rest =>
      cases cond with
      | none =>
        have hW : WriteEventsCond env deps w f none = writeChosen env deps w f.ms e0 := by
          simp [WriteEventsCond, hflag, hf]
        rw [hW]
        refine ⟨?_, ?_, ?_, ?_, ?_⟩
        · simp [writeChosen_ret]
        · simp [writeChosen_ret]
        · simp
        · intro _ e rest' h
          injection h with h _
          rw [h]
        · intro c pre e post h
          cases h
      | some c =>
        cases hm : firstMatch c (e0 :: rest) with
        | none =>
          have hW : WriteEventsCond env deps w f (some c) =
              (.ret (some "no events satisfied the condition"), w) := by
            simp [WriteEventsCond, hflag, hf, hm]
          have hall := (firstMatch_none c (e0 :: rest)).mp hm
          rw [hW]
          refine ⟨?_, ?_, ?_, ?_, ?_⟩
          · simp
          · simp only [true_iff]
            exact ⟨by simp, c, rfl, hall⟩
          · simp
          · intro h; cases h
          · intro c' pre e post hc hes hpre he
            injection hc with hc
            subst hc
            have := hall e (by rw [hes]; simp)
            rw [he] at this
            cases this
        | some e =>
          have hW : WriteEventsCond env deps w f (some c) = writeChosen env deps w f.ms e := by
            simp [WriteEventsCond, hflag, hf, hm]
          obtain ⟨pre, post, hes, hpre, he⟩ := firstMatch_some c _ e hm
          rw [hW]
          refine ⟨?_, ?_, ?_, ?_, ?_⟩
          · simp [writeChosen_ret]
          · simp only [writeChosen_ret, false_iff, not_and, not_exists]
            intro _ c' hc
            injection hc with hc
            subst hc
            intro hall
            have := hall e (by rw [hes]; simp)
            rw [he] at this
            cases this
          · intro h
            rcases h with h | ⟨c', hc, hall⟩
            · cases h
            · injection hc with hc
              subst hc
              have := hall e (by rw [hes]; simp)
              rw [he] at this
              cases this
          · intro h; cases h
          · intro c' pre' e' post' hc hes' hpre' he'
            injection hc with hc
            subst hc
            have := firstMatch_split c pre' post' e' hpre' he'
            rw [← hes', hm] at this
            injection this with this
            rw [this]
  · simp [writeChosen, h1, WriteEventToDataJSON, hflag, h2, h3, h4, h5]

theorem WriteEventsCond_spec_witness :
    sampleEnv.dataFlag = true ∧
    WriteEventsCond sampleEnv sampleDeps ⟨[]⟩ sampleFetcher (some hasUser) =
      writeChosen sampleEnv sampleDeps ⟨[]⟩ sampleFetcher.ms [("user", .other "0.25")] ∧
    (writeChosen sampleEnv sampleDeps ⟨[]⟩ sampleFetcher.ms [("user", .other "0.25")]).2.files =
      [("/beats/module/_meta/data.json", "user;beat;@timestamp;")] :=
  ⟨rfl,
    (((WriteEventsCond_spec sampleEnv sampleDeps ⟨[]⟩ sampleFetcher (some hasUser) rfl).2.1
      [[("idle", .other "0.5")], [("user", .other "0.25")]] rfl).2.2.2.2
      hasUser [[("idle", .other "0.5")]] [("user", .other "0.25")] [] rfl rfl
      (by intro x hx; rw [List.mem_singleton.mp hx]; rfl) rfl),
    rfl⟩

/-- Claim C9: when the `-data` flag is unset, `WriteEventToDataJSON` returns
with the files and the event (its `Fields` included) as they were, for every
event and every path; when the flag is set and the working directory, the JSON
encoding and the file write succeed on an event whose `Fields` is not nil, it
sets `Fields["@timestamp"]` to the timestamp of the event and writes the JSON
text of `Fields` to `_meta/data.json` under the working directory and the given
path; and with the flag set it returns normally only after such a write. -/
theorem WriteEventToDataJSON_spec (env : Env) (w : World) (ev : beat.Event) (p : String) :
    (env.dataFlag = false → WriteEventToDataJSON env w ev p = (.ret (), w, ev)) ∧
    (∀ cwd fields out, env.dataFlag = true → env.getwd = .ok cwd → ev.Fields = some fields →
      env.marshalIndent (fields.set "@timestamp" (.time ev.Timestamp)) = .ok out →
      env.writeErr (env.join [cwd, p, "_meta", "data.json"]) = none →
      WriteEventToDataJSON env w ev p =
        (.ret (), ⟨(env.join [cwd, p, "_meta", "data.json"], out) :: w.files⟩,
          { ev with Fields := some (fields.set "@timestamp" (.time ev.Timestamp)) }) ∧
      (fields.set "@timestamp" (.time ev.Timestamp)).get? "@timestamp"
        = some (.time ev.Timestamp)) ∧
    (env.dataFlag = true → ∀ w' ev', WriteEventToDataJSON env w ev p = (.ret (), w', ev') →
      ∃ cwd fields out, env.getwd = .ok cwd ∧ ev.Fields = some fields ∧
        env.marshalIndent (fields.set "@timestamp" (.time ev.Timestamp)) = .ok out ∧
        w'.files = (env.join [cwd, p, "_meta", "data.json"], out) :: w.files ∧
        ev'.Fields = some (fields.set "@timestamp" (.time ev.Timestamp))) := by
  refine ⟨fun h => ?_, fun cwd fields out h1 h2 h3 h4 h5 => ⟨?_, MapStr.get?_set _ _ _⟩,
    fun h w' ev' hr => ?_⟩
  · simp [WriteEventToDataJSON, h]
  · simp [WriteEventToDataJSON, h1, h2, h3, h4, h5]
  · unfold WriteEventToDataJSON at hr
    simp only [h, Bool.not_true, Bool.false_eq_true, if_false] at hr
    split at hr
    · simp at hr
    · next cwd hcwd =>
      split at hr
      · simp at hr
      · next fields hfields =>
        split at hr
        · simp at hr
        · next out hout =>
          split at hr
          · simp at hr
          · simp only [Prod.mk.injEq, true_and] at hr
            obtain ⟨rfl, rfl⟩ := hr
            exact ⟨cwd, fields, out, hcwd, hfields, hout, rfl, rfl⟩

theorem WriteEventToDataJSON_spec_witness :
    WriteEventToDataJSON { sampleEnv with dataFlag := false } ⟨[]⟩
        ⟨⟨2017, 10, 12, 8, 5, 34, 853000000⟩, some [("user", .other "0.25")]⟩ "module/system/cpu"
      = (.ret (), ⟨[]⟩,
          ⟨⟨2017, 10, 12, 8, 5, 34, 853000000⟩, some [("user", .other "0.25")]⟩) ∧
    WriteEventToDataJSON sampleEnv ⟨[]⟩
        ⟨⟨2017, 10, 12, 8, 5, 34, 853000000⟩, some [("user", .other "0.25")]⟩ "module/system/cpu"
      = (.ret (), ⟨[("/beats/module/module/system/cpu/_meta/data.json", "user;@timestamp;")]⟩,
          ⟨⟨2017, 10, 12, 8, 5, 34, 853000000⟩,
            some [("user", .other "0.25"),
              ("@timestamp", .time ⟨2017, 10, 12, 8, 5, 34, 853000000⟩)]⟩) :=
  ⟨(WriteEventToDataJSON_spec { sampleEnv with dataFlag := false } ⟨[]⟩
      ⟨⟨2017, 10, 12, 8, 5, 34, 853000000⟩, some [("user", .other "0.25")]⟩
      "module/system/cpu").1 rfl,
    ((WriteEventToDataJSON_spec sampleEnv ⟨[]⟩
      ⟨⟨2017, 10, 12, 8, 5, 34, 853000000⟩, some [("user", .other "0.25")]⟩
      "module/system/cpu").2.1 "/beats/module" [("user", .other "0.25")] "user;@timestamp;"
      rfl rfl rfl rfl rfl).1⟩

end Beats
